import Mathlib

/-!
# ChronoGuard timesheet system: a shallow embedding

This file embeds the time-accounting and validation engine of the
ChronoGuard browser timesheet application (React/TypeScript) in Lean 4
and proves the specification claims about it.

The embedding follows the source closely:
* times of day ("HH:mm") and dates ("YYYY-MM-DD") are kept as strings,
  converted to minutes-since-midnight resp. civil day numbers exactly
  where the source converts them;
* JavaScript numbers are modelled as rationals (ℚ);
* JavaScript truthiness tests on optional numbers/strings are modelled
  explicitly (0 and "" are falsy);
* the in-browser SQLite store is modelled as lists of rows; `INSERT OR
  REPLACE` deletes any row with the same primary key and appends the new
  row (SQLite assigns a fresh rowid, so the replaced row moves to the
  end of an unordered `SELECT *`).
-/

namespace Chrono

/-- Split a character list at every occurrence of `sep` (the char-level
counterpart of JavaScript `String.split`). -/
def splitChars (sep : Char) : List Char → List (List Char)
  | [] => [[]]
  | c :: cs =>
    if c = sep then [] :: splitChars sep cs
    else
      match splitChars sep cs with
      | [] => [[c]]
      | r :: rs => (c :: r) :: rs

/-- Parse a non-empty all-digit character list as a decimal number; `0`
otherwise (the fallback the embedding uses where JavaScript `Number`
would produce `NaN` on malformed input). -/
def decDigits (l : List Char) : Nat :=
  if l ≠ [] ∧ l.all (·.isDigit) then
    l.foldl (fun acc c => acc * 10 + (c.toNat - 48)) 0
  else 0

/-- `toMinutes "HH:mm"` is the `toMins` helper of `checkOverlap`
(App.tsx): split on `":"` and compute `h * 60 + m`. -/
def toMinutes (t : String) : Nat :=
  match splitChars ':' t.data with
  | [h, m] => decDigits h * 60 + decDigits m
  | _ => 0

/-- Days since 1970-01-01 of the civil date `(y, m, d)` (valid for
`y ≥ 1`, `1 ≤ m ≤ 12`); the standard days-from-civil computation backing
the JavaScript `Date` day arithmetic used by the source. -/
def daysFromCivil (y m d : Nat) : Int :=
  let yy : Nat := if m ≤ 2 then y - 1 else y
  let era : Nat := yy / 400
  let yoe : Nat := yy % 400
  let mp : Nat := if 2 < m then m - 3 else m + 9
  let doy : Nat := (153 * mp + 2) / 5 + d - 1
  let doe : Nat := yoe * 365 + yoe / 4 - yoe / 100 + doy
  (era * 146097 + doe : Int) - 719468

/-- Parse a `"YYYY-MM-DD"` date string to a civil day number, mirroring
the `e.date.split('-').map(Number)` + `new Date(y, m-1, d)` pattern of
the source. -/
def parseDate (s : String) : Int :=
  match splitChars '-' s.data with
  | [ys, ms, ds] => daysFromCivil (decDigits ys) (decDigits ms) (decDigits ds)
  | _ => 0

/-- JavaScript `Date.getDay()` for a civil day number: 0 = Sunday.
1970-01-01 was a Thursday (= 4). -/
def jsGetDay (day : Int) : Int :=
  (day + 4).emod 7

/-- Monday of the week containing `day`, computed as in `checkWeeklyLimit`
(`diff = date - day + (day === 0 ? -6 : 1)`). -/
def weekStartOf (day : Int) : Int :=
  let w := jsGetDay day
  if w = 0 then day - 6 else day - (w - 1)

/-- Role of a user: `Manager` or `Employee` (types.ts). -/
inductive Role where
  | Manager
  | Employee
deriving DecidableEq, Repr

/-- Task status: `ToDo`, `InProgress` or `Done` (types.ts). -/
inductive TaskStatus where
  | ToDo
  | InProgress
  | Done
deriving DecidableEq, Repr

/-- `User` (types.ts). -/
structure User where
  id : String
  username : String
  name : String
  role : Role
  avatar : Option String
deriving DecidableEq, Repr

/-- `TaskDefinition` (types.ts): `estimatedHours` and `dueDate` are
optional. -/
structure TaskDefinition where
  id : String
  name : String
  estimatedHours : Option ℚ
  dueDate : Option String
  status : TaskStatus
deriving DecidableEq, Repr

/-- `TimesheetEntry` (types.ts). `managerComment` is kept as a plain
string: the store writes the comment or an empty string in its place, and
`getTimesheets` reads the column back the same way, so entries seen by
the application always carry a
string comment (empty when absent). -/
structure TimesheetEntry where
  id : String
  userId : String
  userName : String
  date : String
  startTime : String
  endTime : String
  durationHours : ℚ
  taskName : String
  taskCategory : String
  description : String
  managerComment : String
deriving DecidableEq, Repr

/-- JavaScript truthiness of an optional number: `undefined`, `null` and
`0` are falsy. -/
def qTruthy : Option ℚ → Bool
  | none => false
  | some x => x != 0

/-- JavaScript truthiness of an optional string: `undefined`, `null` and
`""` are falsy. -/
def sTruthy : Option String → Bool
  | none => false
  | some s => s != ""

/-- `checkOverlap` (App.tsx / the latest dashboard variant): the candidate
`[start, end)` interval for `userId` on `date` overlaps some existing
entry (excluding `excludeId`) when `newStart < existingEnd` and
`newEnd > existingStart` in minutes-since-midnight. -/
def checkOverlap (entries : List TimesheetEntry) (userId date start stop : String)
    (excludeId : Option String) : Bool :=
  let newStart := toMinutes start
  let newEnd := toMinutes stop
  let userEntries := entries.filter fun e =>
    e.userId == userId && e.date == date && !(excludeId == some e.id)
  userEntries.any fun e =>
    decide (newStart < toMinutes e.endTime) && decide (toMinutes e.startTime < newEnd)

/-- Sum of `durationHours` over a list of entries (the
`reduce((acc, e) => acc + e.durationHours, 0)` pattern). -/
def sumDur (l : List TimesheetEntry) : ℚ :=
  (l.map (·.durationHours)).sum

/-- The entries of `userId` (excluding `excludeId`) whose date falls in
the Monday-anchored week containing `dateStr`, as filtered by
`checkWeeklyLimit`. -/
def weekEntries (entries : List TimesheetEntry) (userId dateStr : String)
    (excludeId : Option String) : List TimesheetEntry :=
  let ws := weekStartOf (parseDate dateStr)
  entries.filter fun e =>
    e.userId == userId && !(excludeId == some e.id) &&
      decide (ws ≤ parseDate e.date) && decide (parseDate e.date ≤ ws + 6)

/-- `checkWeeklyLimit` (latest dashboard variant): reject when the
weekly total of the user for the Monday-anchored week of `dateStr` (excluding the
edited entry) plus the candidate duration exceeds 40 hours. -/
def checkWeeklyLimit (entries : List TimesheetEntry) (userId dateStr : String)
    (addDuration : ℚ) (excludeId : Option String) : Bool :=
  decide (40 < sumDur (weekEntries entries userId dateStr excludeId) + addDuration)

/-- Result record of `checkTaskLimit`. -/
structure TaskLimitCheck where
  exceeded : Bool
  limit : ℚ
  current : ℚ
deriving DecidableEq, Repr

/-- Total `durationHours` logged against `taskName` by any user,
excluding `excludeId` (the sum inside `checkTaskLimit`). -/
def taskTotal (entries : List TimesheetEntry) (taskName : String)
    (excludeId : Option String) : ℚ :=
  sumDur (entries.filter fun e => e.taskName == taskName && !(excludeId == some e.id))

/-- `checkTaskLimit` (latest dashboard variant): look up the first task
definition named `taskName` (`tasks.find`); if there is none or its
`estimatedHours` is falsy, no budget applies; otherwise the limit is
exceeded when the total logged for the task plus the new duration
exceeds the estimate. -/
def checkTaskLimit (entries : List TimesheetEntry) (tasks : List TaskDefinition)
    (taskName : String) (addDuration : ℚ) (excludeId : Option String) : TaskLimitCheck :=
  match tasks.find? (fun t => t.name == taskName) with
  | none => ⟨false, 0, 0⟩
  | some td =>
    if qTruthy td.estimatedHours then
      let limit := td.estimatedHours.getD 0
      let total := taskTotal entries taskName excludeId
      ⟨decide (limit < total + addDuration), limit, total⟩
    else ⟨false, 0, 0⟩

/-- The candidate data passed to `handleSaveEntry`
(`TimesheetEntry` without `id`, `userId` and `userName`). -/
structure EntryData where
  date : String
  startTime : String
  endTime : String
  durationHours : ℚ
  taskName : String
  taskCategory : String
  description : String
  managerComment : String
deriving DecidableEq, Repr

/-- `{ ...editingEntry, ...entryData }`: overwrite the data fields of an
existing entry, keeping `id`, `userId`, `userName`. -/
def applyData (old : TimesheetEntry) (d : EntryData) : TimesheetEntry :=
  { old with
    date := d.date, startTime := d.startTime, endTime := d.endTime
    durationHours := d.durationHours, taskName := d.taskName
    taskCategory := d.taskCategory, description := d.description
    managerComment := d.managerComment }

/-- The fresh entry built by `handleSaveEntry` when not editing
(`id: Date.now().toString()` is passed in as `newId`). -/
def mkNewEntry (currentUser : User) (d : EntryData) (newId : String) : TimesheetEntry :=
  { id := newId, userId := currentUser.id, userName := currentUser.name
    date := d.date, startTime := d.startTime, endTime := d.endTime
    durationHours := d.durationHours, taskName := d.taskName
    taskCategory := d.taskCategory, description := d.description
    managerComment := d.managerComment }

/-- SQLite `INSERT OR REPLACE` keyed on `id` (used by
`addTimesheetEntry` / `updateTimesheetEntry`): any existing row with the
same primary key is deleted and the new row is inserted. -/
def dbUpsert (entries : List TimesheetEntry) (e : TimesheetEntry) : List TimesheetEntry :=
  (entries.filter fun x => x.id != e.id) ++ [e]

/-- The entry record that a successful save stores: the edited entry
with its data fields overwritten, or the fresh entry. -/
def savedEntryOf (currentUser : User) (editing : Option TimesheetEntry)
    (d : EntryData) (newId : String) : TimesheetEntry :=
  match editing with
  | some old => applyData old d
  | none => mkNewEntry currentUser d newId

/-- The write performed by `handleSaveEntry` once all checks pass:
update the edited entry, or append the fresh entry. -/
def commitEntry (entries : List TimesheetEntry) (currentUser : User)
    (editing : Option TimesheetEntry) (d : EntryData) (newId : String) :
    List TimesheetEntry :=
  dbUpsert entries (savedEntryOf currentUser editing d newId)

/-- The `userId` the save is performed for: the owner of the edited entry, or
the current user. -/
def targetUserOf (currentUser : User) (editing : Option TimesheetEntry) : String :=
  match editing with
  | some old => old.userId
  | none => currentUser.id

/-- `handleSaveEntry` (latest dashboard variant, the one with the
task-budget confirmation dialog): run the overlap check, then the weekly
40-hour check, then the task-budget check; a budget overrun asks for
confirmation (`window.confirm`, modelled by the `confirmed` argument)
and aborts when declined; only then is the entry written. Returns the
rejection message (`some reason`) or `none` on success, together with
the resulting entry table. -/
def handleSaveEntry (entries : List TimesheetEntry) (tasks : List TaskDefinition)
    (currentUser : User) (editing : Option TimesheetEntry) (d : EntryData)
    (newId : String) (confirmed : Bool) : Option String × List TimesheetEntry :=
  let targetUserId := targetUserOf currentUser editing
  if checkOverlap entries targetUserId d.date d.startTime d.endTime (editing.map (·.id)) then
    (some "Time entry overlaps with an existing entry.", entries)
  else if checkWeeklyLimit entries targetUserId d.date d.durationHours (editing.map (·.id)) then
    (some "This entry exceeds the 40-hour weekly limit.", entries)
  else
    let taskCheck := checkTaskLimit entries tasks d.taskName d.durationHours (editing.map (·.id))
    if taskCheck.exceeded && !confirmed then
      (some "Action cancelled. Budget limit exceeded.", entries)
    else
      (none, commitEntry entries currentUser editing d newId)

/-! ## Aggregation engine: chronological overtime marking
(`entryOvertimeInfo`, TimesheetTable.tsx) -/

/-- The sort comparator of `entryOvertimeInfo`: ascending by `date`
then `startTime`, both plain string comparisons
(`a.date.localeCompare(b.date)` / `a.startTime.localeCompare(b.startTime)`
on zero-padded ISO-like strings). -/
def chronoLe (a b : TimesheetEntry) : Prop :=
  a.date < b.date ∨ (a.date = b.date ∧ a.startTime ≤ b.startTime)

instance : DecidableRel chronoLe := fun a b => by
  unfold chronoLe; infer_instance

instance : IsTotal TimesheetEntry chronoLe where
  total a b := by
    unfold chronoLe
    rcases lt_trichotomy a.date b.date with h | h | h
    · exact Or.inl (Or.inl h)
    · rcases le_total a.startTime b.startTime with h2 | h2
      · exact Or.inl (Or.inr ⟨h, h2⟩)
      · exact Or.inr (Or.inr ⟨h.symm, h2⟩)
    · exact Or.inr (Or.inl h)

instance : IsTrans TimesheetEntry chronoLe where
  trans a b c hab hbc := by
    unfold chronoLe at *
    rcases hab with h1 | ⟨h1, h1'⟩ <;> rcases hbc with h2 | ⟨h2, h2'⟩
    · exact Or.inl (h1.trans h2)
    · exact Or.inl (h2 ▸ h1)
    · exact Or.inl (h1 ▸ h2)
    · exact Or.inr ⟨h1.trans h2, h1'.trans h2'⟩

/-- The chronological sort of the entries of one task (a stable sort by the
`(date, startTime)` comparator, as JavaScript `Array.sort` is). -/
def sortChrono (l : List TimesheetEntry) : List TimesheetEntry :=
  l.insertionSort chronoLe

/-- The marking scan of `entryOvertimeInfo`: accumulate
`runningTotal += e.durationHours` and record `(id, cumulative, limit)`
for every entry whose running total strictly exceeds the limit after
adding it. -/
def overtimeMarks (limit : ℚ) (acc : ℚ) :
    List TimesheetEntry → List (String × ℚ × ℚ)
  | [] => []
  | e :: rest =>
    let t := acc + e.durationHours
    (if limit < t then [(e.id, t, limit)] else []) ++ overtimeMarks limit t rest

/-- The running totals alongside each entry of a scan starting at `acc`
(specification-side companion of `overtimeMarks`). -/
def withRunningTotals (acc : ℚ) : List TimesheetEntry → List (TimesheetEntry × ℚ)
  | [] => []
  | e :: rest => (e, acc + e.durationHours) :: withRunningTotals (acc + e.durationHours) rest

/-- Sum of the durations of the first `n` entries. -/
def sumTake (l : List TimesheetEntry) (n : Nat) : ℚ :=
  sumDur (l.take n)

/-- The distinct task names of an entry list in order of first
occurrence (`Object.keys` of the `entriesByTask` grouping built by a
forward pass). -/
def firstTaskNames (l : List TimesheetEntry) : List String :=
  l.foldl (fun acc e => if e.taskName ∈ acc then acc else acc ++ [e.taskName]) []

/-- The `taskMap` lookup of `entryOvertimeInfo`: the map is built by
`tasks.reduce((acc, t) => { acc[t.name] = t; ... })`, so the *last* task
definition with a given name wins. -/
def taskMapLookup (tasks : List TaskDefinition) (name : String) : Option TaskDefinition :=
  tasks.foldl (fun acc t => if t.name == name then some t else acc) none

/-- `entryOvertimeInfo` (TimesheetTable.tsx): for each task name of the
complete entry set whose task definition has a truthy `estimatedHours`,
sort the entries of that task chronologically and mark every entry whose
running total exceeds the budget, attaching the cumulative total and
the limit. The result is the association list backing the
`Map<entryId, {cumulative, limit}>`. -/
def entryOvertimeInfo (entries : List TimesheetEntry) (tasks : List TaskDefinition) :
    List (String × ℚ × ℚ) :=
  if tasks.isEmpty || entries.isEmpty then []
  else
    (firstTaskNames entries).flatMap fun tn =>
      match taskMapLookup tasks tn with
      | none => []
      | some td =>
        if qTruthy td.estimatedHours then
          overtimeMarks (td.estimatedHours.getD 0) 0
            (sortChrono (entries.filter fun e => e.taskName == tn))
        else []

/-! ## View filter pipeline (`accessibleEntries` / `matchesFilters` /
`filteredEntries`, latest dashboard variant) -/

/-- The attribute filter state of the dashboard (`ALL` disables a
dropdown filter; an empty `query` disables the free-text search). -/
structure Filters where
  filterUserId : String
  filterCategory : String
  filterTaskName : String
  query : String
deriving DecidableEq, Repr

/-- `accessibleEntries`: role-based visibility applied before all other
filters — a Manager sees the full table, an Employee only their own
entries. -/
def accessibleEntries (user : User) (entries : List TimesheetEntry) :
    List TimesheetEntry :=
  match user.role with
  | .Manager => entries
  | .Employee => entries.filter fun e => e.userId == user.id

/-- `listIncludes q s` is true when `q` occurs as a contiguous substring
of `s` (the character-list semantics of JavaScript `String.includes`). -/
def listIncludes (q : List Char) : List Char → Bool
  | [] => q.isEmpty
  | c :: rest => q.isPrefixOf (c :: rest) || listIncludes q rest

/-- Case-insensitive substring match (`a.toLowerCase().includes(q)` with
`q` already lowercased), at the character-list level. -/
def lowerIncludes (s : String) (q : List Char) : Bool :=
  listIncludes q (s.data.map Char.toLower)

/-- `matchesFilters`: the user, category and task dropdown filters in
sequence, then the free-text query matched case-insensitively against
`taskName`, `description` and `userName` (OR across the three fields). -/
def matchesFilters (fl : Filters) (e : TimesheetEntry) : Bool :=
  if fl.filterUserId != "ALL" && e.userId != fl.filterUserId then false
  else if fl.filterCategory != "ALL" && e.taskCategory != fl.filterCategory then false
  else if fl.filterTaskName != "ALL" && e.taskName != fl.filterTaskName then false
  else if fl.query != "" then
    let q := fl.query.data.map Char.toLower
    lowerIncludes e.taskName q || lowerIncludes e.description q || lowerIncludes e.userName q
  else true

/-- The date-range predicate of `filteredEntries`: the civil day of the entry
lies in the inclusive `[startDay, endDay]` window produced by
`getViewDateRange`. -/
def inDateRange (startDay endDay : Int) (e : TimesheetEntry) : Bool :=
  decide (startDay ≤ parseDate e.date) && decide (parseDate e.date ≤ endDay)

/-- The final sort order of `filteredEntries`:
`sort((a, b) => new Date(a.date).getTime() - new Date(b.date).getTime())`,
i.e. ascending by date. -/
def dateLe (a b : TimesheetEntry) : Prop :=
  parseDate a.date ≤ parseDate b.date

instance : DecidableRel dateLe := fun a b => by
  unfold dateLe; infer_instance

instance : IsTotal TimesheetEntry dateLe where
  total a b := le_total (parseDate a.date) (parseDate b.date)

instance : IsTrans TimesheetEntry dateLe where
  trans _ _ _ hab hbc := le_trans hab hbc

/-- `filteredEntries` (latest dashboard variant): restrict by role, then
by the date range, then by the attribute filters, and sort the result by
date ascending (a stable sort, as JavaScript `Array.sort` is). -/
def filteredEntries (user : User) (entries : List TimesheetEntry) (fl : Filters)
    (startDay endDay : Int) : List TimesheetEntry :=
  ((((accessibleEntries user entries).filter (inDateRange startDay endDay)).filter
    (matchesFilters fl))).insertionSort dateLe

/-! ## Notification deriver (`notifications`, latest dashboard variant) -/

/-- Notification type: `OVERDUE` or `OVERTIME`. -/
inductive NType where
  | OVERDUE
  | OVERTIME
deriving DecidableEq, Repr

/-- Notification severity: `high`, `medium` or `low`. -/
inductive Severity where
  | high
  | medium
  | low
deriving DecidableEq, Repr

/-- A `SystemNotification` as derived for the notification bell of a manager.
The `message` display string (interpolated from the same task data) is
presentation text and is not modelled. -/
structure SystemNotification where
  id : String
  ntype : NType
  title : String
  severity : Severity
deriving DecidableEq, Repr

/-- The overdue branch of the notification scan: `task.dueDate` truthy,
the task status not `Done`, and the due day (normalized to midnight)
strictly before today (normalized to midnight). -/
def overdueAlerts (today : Int) (task : TaskDefinition) : List SystemNotification :=
  if sTruthy task.dueDate && !(task.status == TaskStatus.Done) then
    if parseDate (task.dueDate.getD "") < today then
      [{ id := "overdue-" ++ task.id, ntype := .OVERDUE
         title := "Task Overdue", severity := .high }]
    else []
  else []

/-- The budget branch of the notification scan: `task.estimatedHours`
truthy and the total logged against the task name (summed over all
entries, not chronologically gated) strictly above the estimate. -/
def overtimeAlerts (entries : List TimesheetEntry) (task : TaskDefinition) :
    List SystemNotification :=
  if qTruthy task.estimatedHours then
    if task.estimatedHours.getD 0 < sumDur (entries.filter fun e => e.taskName == task.name) then
      [{ id := "overtime-" ++ task.id, ntype := .OVERTIME
         title := "Budget Exceeded", severity := .medium }]
    else []
  else []

/-- The `notifications` memo of the latest dashboard variant: nothing
for a non-manager; for a manager, one pass over all tasks pushing the
overdue alert and then the budget alert per task. -/
def notificationsFor (role : Role) (tasks : List TaskDefinition)
    (entries : List TimesheetEntry) (today : Int) : List SystemNotification :=
  match role with
  | .Employee => []
  | .Manager => tasks.flatMap fun task => overdueAlerts today task ++ overtimeAlerts entries task

/-- A truthy due date strictly before `today`. -/
def dueDateOk (today : Int) : Option String → Prop
  | none => False
  | some dd => dd ≠ "" ∧ parseDate dd < today

instance (today : Int) : (o : Option String) → Decidable (dueDateOk today o)
  | none => isFalse (fun h => h)
  | some _ => by unfold dueDateOk; infer_instance

/-- The overdue predicate of the spec: due date set (and truthy),
status not `Done`, due day before today. -/
def overduePred (today : Int) (t : TaskDefinition) : Prop :=
  dueDateOk today t.dueDate ∧ t.status ≠ TaskStatus.Done

instance (today : Int) (t : TaskDefinition) : Decidable (overduePred today t) := by
  unfold overduePred; infer_instance

/-- A truthy estimate strictly below `total`. -/
def estOver (total : ℚ) : Option ℚ → Prop
  | none => False
  | some h => h ≠ 0 ∧ h < total

instance (total : ℚ) : (o : Option ℚ) → Decidable (estOver total o)
  | none => isFalse (fun h => h)
  | some _ => by unfold estOver; infer_instance

/-- The budget-overrun predicate of the spec: estimate set (and truthy)
and total logged hours for the task name above it. -/
def overtimePred (entries : List TimesheetEntry) (t : TaskDefinition) : Prop :=
  estOver (sumDur (entries.filter fun e => e.taskName == t.name)) t.estimatedHours

instance (entries : List TimesheetEntry) (t : TaskDefinition) :
    Decidable (overtimePred entries t) := by
  unfold overtimePred; infer_instance

/-! ## The SQLite-backed entity store (services/db.ts, latest variant) -/

/-- The three tables of the store. -/
structure DBState where
  users : List User
  tasks : List TaskDefinition
  timesheets : List TimesheetEntry
deriving DecidableEq, Repr

/-- SQLite `INSERT OR REPLACE` keyed by `key`: the conflicting row (if
any) is deleted and the new row inserted with a fresh rowid, so it
appears after the surviving rows. Never fails. -/
def replaceById {α : Type} (key : α → String) (rows : List α) (r : α) : List α :=
  (rows.filter fun x => key x != key r) ++ [r]

/-- `addUser`: `INSERT OR REPLACE INTO users ...`. -/
def addUser (s : DBState) (u : User) : DBState :=
  { s with users := replaceById (·.id) s.users u }

/-- `updateUser(user) { addUser(user); }`. -/
def updateUser (s : DBState) (u : User) : DBState :=
  addUser s u

/-- `deleteUser`: `DELETE FROM users WHERE id = ?`. -/
def deleteUser (s : DBState) (uid : String) : DBState :=
  { s with users := s.users.filter fun u => u.id != uid }

/-- `addTask`: `INSERT OR REPLACE INTO tasks ...`. -/
def addTask (s : DBState) (t : TaskDefinition) : DBState :=
  { s with tasks := replaceById (·.id) s.tasks t }

/-- `deleteTask`: `DELETE FROM tasks WHERE id = ?` — it touches only the
tasks table. -/
def deleteTask (s : DBState) (tid : String) : DBState :=
  { s with tasks := s.tasks.filter fun t => t.id != tid }

/-- `addTimesheetEntry`: `INSERT OR REPLACE INTO timesheets ...`. -/
def addTimesheetEntry (s : DBState) (e : TimesheetEntry) : DBState :=
  { s with timesheets := replaceById (·.id) s.timesheets e }

/-- `updateTimesheetEntry(entry) { addTimesheetEntry(entry); }`. -/
def updateTimesheetEntry (s : DBState) (e : TimesheetEntry) : DBState :=
  addTimesheetEntry s e

/-- `deleteTimesheetEntry`: `DELETE FROM timesheets WHERE id = ?`. -/
def deleteTimesheetEntry (s : DBState) (eid : String) : DBState :=
  { s with timesheets := s.timesheets.filter fun e => e.id != eid }

/-! ## SQL backup export / import (`exportDatabaseSQL` /
`importDatabaseSQL`) -/

/-- A stored SQLite value: `NULL`, `TEXT`, or `REAL`. -/
inductive SQLValue where
  | nullV
  | strV (s : String)
  | numV (q : ℚ)
deriving DecidableEq, Repr

/-- `x || null` on an optional string: absent and empty both store
`NULL`. -/
def strOrNull : Option String → SQLValue
  | none => .nullV
  | some s => if s = "" then .nullV else .strV s

/-- `x || null` on an optional number: absent and `0` both store
`NULL`. -/
def numOrNull : Option ℚ → SQLValue
  | none => .nullV
  | some q => if q = 0 then .nullV else .numV q

def roleStr : Role → String
  | .Manager => "Manager"
  | .Employee => "Employee"

def roleOfStr (s : String) : Option Role :=
  if s = "Manager" then some .Manager
  else if s = "Employee" then some .Employee
  else none

def statusStr : TaskStatus → String
  | .ToDo => "ToDo"
  | .InProgress => "InProgress"
  | .Done => "Done"

def statusOfStr (s : String) : Option TaskStatus :=
  if s = "ToDo" then some .ToDo
  else if s = "InProgress" then some .InProgress
  else if s = "Done" then some .Done
  else none

/-- Schema column order of the `users` table. -/
def userCols : List String := ["id", "username", "name", "role", "avatar"]

/-- Schema column order of the `tasks` table (latest variant: `status`
on the task). -/
def taskCols : List String := ["id", "name", "estimatedHours", "dueDate", "status"]

/-- Schema column order of the `timesheets` table (latest variant: no
per-entry status; `managerComment` last). -/
def timesheetCols : List String :=
  ["id", "userId", "userName", "date", "startTime", "endTime", "durationHours",
   "taskName", "taskCategory", "description", "managerComment"]

/-- The stored row of `addUser`:
`[user.id, user.username, user.name, user.role, user.avatar || null]`. -/
def rowOfUser (u : User) : List SQLValue :=
  [.strV u.id, .strV u.username, .strV u.name, .strV (roleStr u.role), strOrNull u.avatar]

/-- The stored row of `addTask`: `[task.id, task.name,
estimatedHours-or-null, dueDate-or-null, status]`. -/
def rowOfTask (t : TaskDefinition) : List SQLValue :=
  [.strV t.id, .strV t.name, numOrNull t.estimatedHours, strOrNull t.dueDate,
   .strV (statusStr t.status)]

/-- The stored row of `addTimesheetEntry`; the last column is
the manager comment, stored as an *empty string* when absent, never `NULL`. -/
def rowOfEntry (e : TimesheetEntry) : List SQLValue :=
  [.strV e.id, .strV e.userId, .strV e.userName, .strV e.date, .strV e.startTime,
   .strV e.endTime, .numV e.durationHours, .strV e.taskName, .strV e.taskCategory,
   .strV e.description, .strV e.managerComment]

/-- The row mapping of `getUsers`; `none` on a row shape the TypeScript
mapping would not produce a well-typed `User` from. -/
def userOfRow : List SQLValue → Option User
  | [.strV i, .strV un, .strV nm, .strV rl, av] =>
    match roleOfStr rl, av with
    | some role, .nullV => some ⟨i, un, nm, role, none⟩
    | some role, .strV a => some ⟨i, un, nm, role, some a⟩
    | _, _ => none
  | _ => none

/-- The row mapping of `getTasks`. -/
def taskOfRow : List SQLValue → Option TaskDefinition
  | [.strV i, .strV nm, est, dd, .strV st] =>
    match statusOfStr st, est, dd with
    | some status, .nullV, .nullV => some ⟨i, nm, none, none, status⟩
    | some status, .nullV, .strV d => some ⟨i, nm, none, some d, status⟩
    | some status, .numV q, .nullV => some ⟨i, nm, some q, none, status⟩
    | some status, .numV q, .strV d => some ⟨i, nm, some q, some d, status⟩
    | _, _, _ => none
  | _ => none

/-- The row mapping of `getTimesheets`; the comment column is read back
as the stored string, with `NULL` read back as the empty string. -/
def entryOfRow : List SQLValue → Option TimesheetEntry
  | [.strV i, .strV uid, .strV un, .strV dt, .strV st, .strV et, .numV dur,
     .strV tn, .strV tc, .strV ds, mc] =>
    match mc with
    | .nullV => some ⟨i, uid, un, dt, st, et, dur, tn, tc, ds, ""⟩
    | .strV c => some ⟨i, uid, un, dt, st, et, dur, tn, tc, ds, c⟩
    | .numV _ => none
  | _ => none

/-- A statement of the backup script: the export emits the three
`CREATE TABLE` statements followed by one
`INSERT INTO <table> (<cols>) VALUES (<vals>)` per row. -/
inductive SQLStmt where
  | createTable (tbl : String) (cols : List String)
  | insertRow (tbl : String) (cols : List String) (vals : List SQLValue)
deriving DecidableEq, Repr

/-- Modelled from the spec: the embedded SQL storage engine (sql.js) is
out of scope; it is modelled as a statement-level executor that creates
tables and appends inserted rows whose column list matches the table
schema (the text-to-statement parsing is the contract of the engine; the
string-literal escaping produced by the export is verified separately
below). -/
def execStmt (s : DBState) : SQLStmt → DBState
  | .createTable _ _ => s
  | .insertRow tbl cols vals =>
    if tbl = "users" ∧ cols = userCols then
      match userOfRow vals with
      | some u => { s with users := s.users ++ [u] }
      | none => s
    else if tbl = "tasks" ∧ cols = taskCols then
      match taskOfRow vals with
      | some t => { s with tasks := s.tasks ++ [t] }
      | none => s
    else if tbl = "timesheets" ∧ cols = timesheetCols then
      match entryOfRow vals with
      | some e => { s with timesheets := s.timesheets ++ [e] }
      | none => s
    else s

def runScript (stmts : List SQLStmt) (s : DBState) : DBState :=
  stmts.foldl execStmt s

/-- `exportDatabaseSQL` at the statement level: the schema
(`sqlite_master`) first, then the data of `users`, `tasks`,
`timesheets`, each row in stored order with the full column list. -/
def exportStmts (s : DBState) : List SQLStmt :=
  [.createTable "users" userCols, .createTable "tasks" taskCols,
   .createTable "timesheets" timesheetCols]
  ++ s.users.map (fun u => .insertRow "users" userCols (rowOfUser u))
  ++ s.tasks.map (fun t => .insertRow "tasks" taskCols (rowOfTask t))
  ++ s.timesheets.map (fun e => .insertRow "timesheets" timesheetCols (rowOfEntry e))

/-- `importDatabaseSQL`: drop the three tables, then replay the
script. -/
def importStmts (stmts : List SQLStmt) : DBState :=
  runScript stmts ⟨[], [], []⟩

/-- A canonical user as stored: no empty-string avatar (`avatar || null`
turns one into `NULL`, which reads back as absent). -/
def WFUser (u : User) : Prop := u.avatar ≠ some ""

/-- A canonical task as stored: no zero estimate and no empty due date
(`x || null` turns both into `NULL`). -/
def WFTask (t : TaskDefinition) : Prop :=
  t.estimatedHours ≠ some 0 ∧ t.dueDate ≠ some ""

/-- A database state as the store itself produces it. -/
def WFState (s : DBState) : Prop :=
  (∀ u ∈ s.users, WFUser u) ∧ (∀ t ∈ s.tasks, WFTask t)

instance (u : User) : Decidable (WFUser u) := by unfold WFUser; infer_instance

instance (t : TaskDefinition) : Decidable (WFTask t) := by unfold WFTask; infer_instance

instance (s : DBState) : Decidable (WFState s) := by unfold WFState; infer_instance

/-- The export escaping of a text value: every single quote is doubled. -/
def escapeSqlChars : List Char → List Char
  | [] => []
  | c :: cs =>
    if c = '\'' then '\'' :: '\'' :: escapeSqlChars cs
    else c :: escapeSqlChars cs

/-- `renderValue` — the `row.map(v => ...)` of `exportDatabaseSQL`:
`NULL` for null, a single-quoted literal with quotes doubled for text,
and a numeral for numbers (JavaScript float printing is abstracted by
the rational rendering of Lean; no claim concerns the numeric text). -/
def renderValue : SQLValue → String
  | .nullV => "NULL"
  | .strV s => "'" ++ String.mk (escapeSqlChars s.data) ++ "'"
  | .numV q => toString q

/-- Consume a quoted SQL literal after its opening quote: a doubled
quote is an escaped quote, a lone quote ends the literal. -/
def parseQuoted (l : List Char) (acc : List Char) : Option (String × List Char) :=
  match l with
  | [] => none
  | '\'' :: rest =>
    match rest with
    | '\'' :: rest2 => parseQuoted rest2 (acc ++ ['\''])
    | _ => some (String.mk acc, rest)
  | c :: rest => parseQuoted rest (acc ++ [c])
termination_by l.length

/-- Parse one complete rendered value back: a quoted literal or `NULL`
(numeric literals are not modelled). -/
def parseSqlValue (s : String) : Option SQLValue :=
  match s.data with
  | '\'' :: rest =>
    match parseQuoted rest [] with
    | some (str, []) => some (.strV str)
    | _ => none
  | _ => if s = "NULL" then some .nullV else none

/-- `C1` scenario data: user `u1`, entries `[09:00-11:20]` and
`[13:00-16:00]` on `2025-12-01`. -/
def c1Entry1 : TimesheetEntry :=
  { id := "1", userId := "u1", userName := "Thanh Vu", date := "2025-12-01"
    startTime := "09:00", endTime := "11:20", durationHours := 2.2
    taskName := "T", taskCategory := "Development", description := "", managerComment := "" }

def c1Entry2 : TimesheetEntry :=
  { id := "2", userId := "u1", userName := "Thanh Vu", date := "2025-12-01"
    startTime := "13:00", endTime := "16:00", durationHours := 3
    taskName := "T", taskCategory := "Development", description := "", managerComment := "" }

/-- An employee saving for themselves. -/
def demoEmployee : User :=
  { id := "u1", username := "user", name := "Thanh Vu", role := .Employee, avatar := none }

/-- Candidate data on 2025-12-03 (same Monday-anchored week as the `c1`
entries, a different day so it cannot overlap them) worth 36 hours:
together with the existing 5.2 hours this breaks the 40-hour cap. -/
def overCapData : EntryData :=
  { date := "2025-12-03", startTime := "08:00", endTime := "20:00", durationHours := 36
    taskName := "T", taskCategory := "Development", description := "", managerComment := "" }

/-- A task definition with a 36.5-hour budget named `"T"` (the task the
`c1` entries are logged against). -/
def demoBudgetTask : TaskDefinition :=
  { id := "PMI-EPIC 9", name := "T", estimatedHours := some 36.5, dueDate := none
    status := .ToDo }

/-- Candidate data worth 32 hours against task `"T"`: weekly total stays
at 37.2 ≤ 40, but the task total 5.2 + 32 = 37.2 exceeds the 36.5-hour
budget. -/
def overBudgetData : EntryData :=
  { date := "2025-12-03", startTime := "08:00", endTime := "20:00", durationHours := 32
    taskName := "T", taskCategory := "Development", description := "", managerComment := "" }

/-- Entry of 7 hours on 2025-12-03 against task `"T"`. -/
def ovEntry3 : TimesheetEntry :=
  { id := "3", userId := "u1", userName := "Thanh Vu", date := "2025-12-03"
    startTime := "10:00", endTime := "17:00", durationHours := 7
    taskName := "T", taskCategory := "Development", description := "", managerComment := "" }

/-- Entry of 5.3 hours on 2025-12-04 against task `"T"`. -/
def ovEntry4 : TimesheetEntry :=
  { id := "4", userId := "u1", userName := "Thanh Vu", date := "2025-12-04"
    startTime := "11:00", endTime := "16:30", durationHours := 5.3
    taskName := "T", taskCategory := "Development", description := "", managerComment := "" }

/-- Entry of 20 hours on 2025-12-05 against task `"T"`: the one that
pushes the task total from 17.5 to 37.5, past the 36.5-hour budget. -/
def ovEntry5 : TimesheetEntry :=
  { id := "5", userId := "u1", userName := "Thanh Vu", date := "2025-12-05"
    startTime := "00:00", endTime := "20:00", durationHours := 20
    taskName := "T", taskCategory := "Development", description := "", managerComment := "" }

/-- The five-entry overtime scenario of the spec, in chronological
order. -/
def ovEntries : List TimesheetEntry :=
  [c1Entry1, c1Entry2, ovEntry3, ovEntry4, ovEntry5]

/-- A task with a due date of 2025-12-01 that is not yet done. -/
def overdueTask : TaskDefinition :=
  { id := "LATE-1", name := "L", estimatedHours := none
    dueDate := some "2025-12-01", status := .InProgress }

/-- The concrete store for the deletion scenario: the single budgeted
task and the five `"T"` entries (37.5 logged hours against 36.5). -/
def demoDB : DBState :=
  { users := [], tasks := [demoBudgetTask], timesheets := ovEntries }

/-! ## Theorems -/

theorem listIncludes_iff_infix (q : List Char) :
    ∀ s, listIncludes q s = true ↔ q <:+: s
  | [] => by
    simp [listIncludes, List.isEmpty_iff, List.infix_nil]
  | c :: rest => by
    simp only [listIncludes, Bool.or_eq_true, List.isPrefixOf_iff_prefix,
      listIncludes_iff_infix q rest, List.infix_cons_iff]

theorem matchesFilters_iff (fl : Filters) (e : TimesheetEntry) :
    matchesFilters fl e = true ↔
      (fl.filterUserId = "ALL" ∨ e.userId = fl.filterUserId)
      ∧ (fl.filterCategory = "ALL" ∨ e.taskCategory = fl.filterCategory)
      ∧ (fl.filterTaskName = "ALL" ∨ e.taskName = fl.filterTaskName)
      ∧ (fl.query = "" ∨
          (lowerIncludes e.taskName (fl.query.data.map Char.toLower)
            || lowerIncludes e.description (fl.query.data.map Char.toLower)
            || lowerIncludes e.userName (fl.query.data.map Char.toLower)) = true) := by
  unfold matchesFilters
  split_ifs with h1 h2 h3 h4 <;>
    simp_all [Bool.and_eq_true, bne_iff_ne] <;> tauto

/-- C7. The view pipeline first restricts by role (an Employee sees
exactly their own entries, a Manager the full table), then keeps exactly
the accessible entries matching the date-range window and the user,
category and task-name filters, with a non-empty query matched
case-insensitively as a substring of `taskName`, `description` or
`userName` (OR across the fields, AND with the other filters), and
returns the result sorted by date ascending. (`lowerIncludes s q` holds
exactly when `q` is an infix of the lowercased characters of `s`.) -/
theorem filteredEntries_spec :
    (∀ (s : String) (q : List Char),
      lowerIncludes s q = true ↔ q <:+: s.data.map Char.toLower)
    ∧ ∀ (user : User) (entries : List TimesheetEntry) (fl : Filters)
      (startDay endDay : Int),
      (∀ e, e ∈ filteredEntries user entries fl startDay endDay ↔
        e ∈ entries
        ∧ (user.role = .Manager ∨ e.userId = user.id)
        ∧ (startDay ≤ parseDate e.date ∧ parseDate e.date ≤ endDay)
        ∧ (fl.filterUserId = "ALL" ∨ e.userId = fl.filterUserId)
        ∧ (fl.filterCategory = "ALL" ∨ e.taskCategory = fl.filterCategory)
        ∧ (fl.filterTaskName = "ALL" ∨ e.taskName = fl.filterTaskName)
        ∧ (fl.query = "" ∨
            (lowerIncludes e.taskName (fl.query.data.map Char.toLower)
              || lowerIncludes e.description (fl.query.data.map Char.toLower)
              || lowerIncludes e.userName (fl.query.data.map Char.toLower)) = true))
      ∧ List.Sorted dateLe (filteredEntries user entries fl startDay endDay) := by
  refine ⟨fun s q => listIncludes_iff_infix q _, ?_⟩
  intro user entries fl startDay endDay
  constructor
  · intro e
    rw [filteredEntries, List.mem_insertionSort, List.mem_filter, List.mem_filter,
      matchesFilters_iff]
    have hacc : e ∈ accessibleEntries user entries ↔
        e ∈ entries ∧ (user.role = .Manager ∨ e.userId = user.id) := by
      unfold accessibleEntries
      cases hrole : user.role <;> simp [hrole]
    rw [hacc]
    simp only [inDateRange, Bool.and_eq_true, decide_eq_true_eq]
    constructor
    · rintro ⟨⟨⟨h1, h2⟩, h3⟩, h4⟩
      exact ⟨h1, h2, h3, h4⟩
    · rintro ⟨h1, h2, h3, h4⟩
      exact ⟨⟨⟨h1, h2⟩, h3⟩, h4⟩
  · exact List.sorted_insertionSort dateLe _

theorem overdueAlerts_eq (today : Int) (u : TaskDefinition) :
    overdueAlerts today u = if overduePred today u then
      [{ id := "overdue-" ++ u.id, ntype := .OVERDUE
         title := "Task Overdue", severity := .high }] else [] := by
  cases hdd : u.dueDate <;>
    simp only [overdueAlerts, overduePred, dueDateOk, sTruthy, hdd] <;>
    split_ifs <;> simp_all [bne_iff_ne]

theorem overtimeAlerts_eq (entries : List TimesheetEntry) (u : TaskDefinition) :
    overtimeAlerts entries u = if overtimePred entries u then
      [{ id := "overtime-" ++ u.id, ntype := .OVERTIME
         title := "Budget Exceeded", severity := .medium }] else [] := by
  cases hest : u.estimatedHours <;>
    simp only [overtimeAlerts, overtimePred, estOver, qTruthy, hest, Option.getD] <;>
    split_ifs <;> simp_all [bne_iff_ne]

theorem string_append_left_cancel {p a b : String} (h : p ++ a = p ++ b) : a = b := by
  have hd : p.data ++ a.data = p.data ++ b.data := by
    have := congrArg String.data h
    simpa [String.data_append] using this
  have hab := List.append_cancel_left hd
  cases a; cases b
  exact congrArg String.mk hab

theorem countP_flatMap_sum {α β : Type} (p : β → Bool) (f : α → List β) :
    ∀ l : List α, ((l.flatMap f).countP p) = (l.map fun a => (f a).countP p).sum
  | [] => rfl
  | a :: rest => by
    simp [List.flatMap_cons, List.countP_append, countP_flatMap_sum p f rest]

theorem map_sum_single (f : TaskDefinition → Nat) :
    ∀ (tasks : List TaskDefinition) (t : TaskDefinition),
      (tasks.map (·.id)).Nodup → t ∈ tasks →
      (∀ u ∈ tasks, u.id ≠ t.id → f u = 0) →
      (tasks.map f).sum = f t
  | [], t, _, ht, _ => absurd ht (List.not_mem_nil t)
  | a :: rest, t, hnd, ht, hz => by
    simp only [List.map_cons, List.nodup_cons, List.mem_map] at hnd
    rcases List.mem_cons.1 ht with rfl | htr
    · have hzrest : ∀ u ∈ rest, f u = 0 := by
        intro u hu
        refine hz u (List.mem_cons_of_mem _ hu) ?_
        intro hid
        exact hnd.1 ⟨u, hu, hid⟩
      have : (rest.map f).sum = 0 := by
        refine List.sum_eq_zero ?_
        intro x hx
        rcases List.mem_map.1 hx with ⟨u, hu, rfl⟩
        exact hzrest u hu
      simp [this]
    · have hat : f a = 0 := by
        refine hz a (List.mem_cons_self a rest) ?_
        intro hid
        exact hnd.1 ⟨t, htr, hid.symm⟩
      have := map_sum_single f rest t hnd.2 htr fun u hu hid =>
        hz u (List.mem_cons_of_mem _ hu) hid
      simp [hat, this]

theorem overdue_block_countP (today : Int) (entries : List TimesheetEntry)
    (t u : TaskDefinition) :
    (overdueAlerts today u ++ overtimeAlerts entries u).countP
        (fun n => n.ntype == NType.OVERDUE && n.id == "overdue-" ++ t.id)
      = if u.id = t.id ∧ overduePred today u then 1 else 0 := by
  rw [List.countP_append, overdueAlerts_eq, overtimeAlerts_eq]
  by_cases hid : u.id = t.id
  · by_cases hp : overduePred today u
    · simp [hp, hid, List.countP_cons]
    · simp [hp, hid]
  · have hne : ¬("overdue-" ++ u.id = "overdue-" ++ t.id) := by
      intro hh
      exact hid (string_append_left_cancel hh)
    split_ifs <;> simp_all [List.countP_cons]

theorem overtime_block_countP (today : Int) (entries : List TimesheetEntry)
    (t u : TaskDefinition) :
    (overdueAlerts today u ++ overtimeAlerts entries u).countP
        (fun n => n.ntype == NType.OVERTIME && n.id == "overtime-" ++ t.id)
      = if u.id = t.id ∧ overtimePred entries u then 1 else 0 := by
  rw [List.countP_append, overdueAlerts_eq, overtimeAlerts_eq]
  by_cases hid : u.id = t.id
  · by_cases hp : overtimePred entries u
    · simp [hp, hid, List.countP_cons]
    · simp [hp, hid]
  · have hne : ¬("overtime-" ++ u.id = "overtime-" ++ t.id) := by
      intro hh
      exact hid (string_append_left_cancel hh)
    split_ifs <;> simp_all [List.countP_cons]

theorem replaceById_mem {α : Type} (key : α → String) (rows : List α) (r : α) :
    ∀ x, x ∈ replaceById key rows r ↔ (x ∈ rows ∧ key x ≠ key r) ∨ x = r := by
  intro x
  simp [replaceById, List.mem_filter, bne_iff_ne]

theorem replaceById_filter {α : Type} (key : α → String) (rows : List α) (r : α) :
    (replaceById key rows r).filter (fun x => key x == key r) = [r] := by
  simp only [replaceById, List.filter_append, List.filter_filter]
  have h1 : rows.filter (fun x => (key x == key r) && (key x != key r)) = [] := by
    refine List.filter_eq_nil_iff.2 ?_
    intro x _
    by_cases h : key x = key r <;> simp [h]
  rw [h1]
  simp

/-- C1. The overlap validation rejects a candidate save/edit if and only
if some existing entry with the same `userId` and `date` (excluding the
entry being edited) satisfies `newStart < existingEnd` and
`newEnd > existingStart` in minutes-since-midnight; for a user with
entries `[09:00-11:20]` and `[13:00-16:00]` on one date, `[10:00-14:00]`
is rejected while `[11:20-13:00]` is accepted (touching endpoints do not
overlap). -/
theorem checkOverlap_spec :
    (∀ (entries : List TimesheetEntry) (userId date start stop : String)
        (excludeId : Option String),
      checkOverlap entries userId date start stop excludeId = true ↔
        ∃ e ∈ entries, e.userId = userId ∧ e.date = date ∧ excludeId ≠ some e.id ∧
          toMinutes start < toMinutes e.endTime ∧ toMinutes e.startTime < toMinutes stop)
    ∧ checkOverlap [c1Entry1, c1Entry2] "u1" "2025-12-01" "10:00" "14:00" none = true
    ∧ checkOverlap [c1Entry1, c1Entry2] "u1" "2025-12-01" "11:20" "13:00" none = false := by
  refine ⟨?_, by decide, by decide⟩
  intro entries userId date start stop excludeId
  simp only [checkOverlap, List.any_eq_true, List.mem_filter, Bool.and_eq_true,
    beq_iff_eq, decide_eq_true_eq, Bool.not_eq_true', beq_eq_false_iff_ne]
  constructor
  · rintro ⟨e, h⟩
    exact ⟨e, by tauto⟩
  · rintro ⟨e, h⟩
    exact ⟨e, by tauto⟩

/-- C3. If the existing entries of the same user in the Monday-anchored
week of the candidate date (excluding the edited id) plus the candidate
duration exceed 40 hours, the save is rejected with a reason string and
the entry table is left untouched. -/
theorem weeklyLimit_blocks_save
    (entries : List TimesheetEntry) (tasks : List TaskDefinition)
    (currentUser : User) (editing : Option TimesheetEntry) (d : EntryData)
    (newId : String) (confirmed : Bool)
    (h : 40 < sumDur (weekEntries entries (targetUserOf currentUser editing)
            d.date (editing.map (·.id))) + d.durationHours) :
    (handleSaveEntry entries tasks currentUser editing d newId confirmed).1.isSome = true ∧
    (handleSaveEntry entries tasks currentUser editing d newId confirmed).2 = entries := by
  have hw : checkWeeklyLimit entries (targetUserOf currentUser editing)
      d.date d.durationHours (editing.map (·.id)) = true := by
    simpa [checkWeeklyLimit] using h
  unfold handleSaveEntry
  by_cases ho : checkOverlap entries (targetUserOf currentUser editing)
      d.date d.startTime d.endTime (editing.map (·.id)) = true
  · simp [ho]
  · simp only [Bool.not_eq_true] at ho
    simp [ho, hw]

/-- Witness for `weeklyLimit_blocks_save` at the concrete over-cap
scenario. -/
theorem weeklyLimit_blocks_save_witness :
    (handleSaveEntry [c1Entry1, c1Entry2] [] demoEmployee none overCapData "99" true).1.isSome
        = true ∧
    (handleSaveEntry [c1Entry1, c1Entry2] [] demoEmployee none overCapData "99" true).2
        = [c1Entry1, c1Entry2] :=
  weeklyLimit_blocks_save [c1Entry1, c1Entry2] [] demoEmployee none overCapData "99" true
    (by with_unfolding_all decide)

/-- C4. When the task of the candidate has an hour estimate and the total
already logged for that task name by any user (excluding the edited id)
plus the candidate duration exceeds it, the save is gated on explicit
confirmation: declining aborts with no write, confirming commits the
entry. When the task has no estimate, no budget check is performed and
the save commits regardless of the confirmation flag. -/
theorem taskBudget_confirm_gate
    (entries : List TimesheetEntry) (tasks : List TaskDefinition)
    (currentUser : User) (editing : Option TimesheetEntry) (d : EntryData)
    (newId : String)
    (hov : checkOverlap entries (targetUserOf currentUser editing)
        d.date d.startTime d.endTime (editing.map (·.id)) = false)
    (hwk : checkWeeklyLimit entries (targetUserOf currentUser editing)
        d.date d.durationHours (editing.map (·.id)) = false) :
    (∀ td h, tasks.find? (fun t => t.name == d.taskName) = some td →
      td.estimatedHours = some h → h ≠ 0 →
      h < taskTotal entries d.taskName (editing.map (·.id)) + d.durationHours →
      handleSaveEntry entries tasks currentUser editing d newId false
          = (some "Action cancelled. Budget limit exceeded.", entries) ∧
      handleSaveEntry entries tasks currentUser editing d newId true
          = (none, commitEntry entries currentUser editing d newId) ∧
      savedEntryOf currentUser editing d newId
          ∈ (handleSaveEntry entries tasks currentUser editing d newId true).2)
    ∧ (∀ td, tasks.find? (fun t => t.name == d.taskName) = some td →
        td.estimatedHours = none →
        ∀ confirmed, handleSaveEntry entries tasks currentUser editing d newId confirmed
          = (none, commitEntry entries currentUser editing d newId)) := by
  constructor
  · intro td h hfind hest hne hover
    have hexc : checkTaskLimit entries tasks d.taskName d.durationHours
        (editing.map (·.id)) = ⟨true, h, taskTotal entries d.taskName (editing.map (·.id))⟩ := by
      simp [checkTaskLimit, hfind, hest, qTruthy, hne, hover]
    refine ⟨?_, ?_, ?_⟩
    · simp [handleSaveEntry, hov, hwk, hexc]
    · simp [handleSaveEntry, hov, hwk, hexc]
    · simp [handleSaveEntry, hov, hwk, hexc, commitEntry, dbUpsert]
  · intro td hfind hest confirmed
    have hexc : checkTaskLimit entries tasks d.taskName d.durationHours
        (editing.map (·.id)) = ⟨false, 0, 0⟩ := by
      simp [checkTaskLimit, hfind, hest, qTruthy]
    simp [handleSaveEntry, hov, hwk, hexc]

/-- Witness for `taskBudget_confirm_gate` at the concrete over-budget
scenario. -/
theorem taskBudget_confirm_gate_witness :
    handleSaveEntry [c1Entry1, c1Entry2] [demoBudgetTask] demoEmployee none overBudgetData
        "99" false
      = (some "Action cancelled. Budget limit exceeded.", [c1Entry1, c1Entry2]) ∧
    handleSaveEntry [c1Entry1, c1Entry2] [demoBudgetTask] demoEmployee none overBudgetData
        "99" true
      = (none, commitEntry [c1Entry1, c1Entry2] demoEmployee none overBudgetData "99") := by
  have h := (taskBudget_confirm_gate [c1Entry1, c1Entry2] [demoBudgetTask] demoEmployee
      none overBudgetData "99" (by with_unfolding_all decide)
      (by with_unfolding_all decide)).1 demoBudgetTask 36.5
      (by with_unfolding_all decide) (by with_unfolding_all decide)
      (by with_unfolding_all decide) (by with_unfolding_all decide)
  exact ⟨h.1, h.2.1⟩

/-- C5 counterexample: in the latest variant the weekly cap is *not*
overridable. With existing entries of 5.2 hours in the week, a 36-hour
candidate is rejected even though the confirmation flag is `true`, and
nothing is written. -/
theorem weeklyCap_override_counterexample :
    handleSaveEntry [c1Entry1, c1Entry2] [] demoEmployee none overCapData "99" true
      = (some "This entry exceeds the 40-hour weekly limit.", [c1Entry1, c1Entry2]) := by
  with_unfolding_all decide

/-- C5 (amended). In the latest variant the weekly 40-hour cap is a hard
block: if the candidate passes the overlap check but pushes the weekly
Monday-anchored week total over 40 hours, `handleSaveEntry` rejects it
with the weekly-limit message and writes nothing, for either value of
the confirmation flag (only the task budget is override-confirmable). -/
theorem weeklyCap_hard_block
    (entries : List TimesheetEntry) (tasks : List TaskDefinition)
    (currentUser : User) (editing : Option TimesheetEntry) (d : EntryData)
    (newId : String) (confirmed : Bool)
    (hov : checkOverlap entries (targetUserOf currentUser editing)
        d.date d.startTime d.endTime (editing.map (·.id)) = false)
    (h : 40 < sumDur (weekEntries entries (targetUserOf currentUser editing)
            d.date (editing.map (·.id))) + d.durationHours) :
    handleSaveEntry entries tasks currentUser editing d newId confirmed
      = (some "This entry exceeds the 40-hour weekly limit.", entries) := by
  have hw : checkWeeklyLimit entries (targetUserOf currentUser editing)
      d.date d.durationHours (editing.map (·.id)) = true := by
    simpa [checkWeeklyLimit] using h
  simp [handleSaveEntry, hov, hw]

theorem sumDur_append (a b : List TimesheetEntry) :
    sumDur (a ++ b) = sumDur a + sumDur b := by
  simp [sumDur]

theorem sumDur_nonneg {l : List TimesheetEntry}
    (h : ∀ e ∈ l, 0 ≤ e.durationHours) : 0 ≤ sumDur l := by
  refine List.sum_nonneg ?_
  intro x hx
  rcases List.mem_map.1 hx with ⟨e, he, rfl⟩
  exact h e he

theorem sumTake_mono {l : List TimesheetEntry}
    (h : ∀ e ∈ l, 0 ≤ e.durationHours) {i j : Nat} (hij : i ≤ j) :
    sumTake l i ≤ sumTake l j := by
  have hsplit : l.take j = l.take i ++ (l.take j).drop i := by
    conv_lhs => rw [← List.take_append_drop i (l.take j)]
    rw [List.take_take, Nat.min_eq_left hij]
  have hrest : 0 ≤ sumDur ((l.take j).drop i) := by
    refine sumDur_nonneg fun e he => h e ?_
    exact List.take_subset _ _ (List.drop_subset _ _ he)
  calc sumTake l i = sumDur (l.take i) := rfl
    _ ≤ sumDur (l.take i) + sumDur ((l.take j).drop i) := by linarith
    _ = sumDur (l.take j) := by conv_rhs => rw [hsplit, sumDur_append]

theorem overtimeMarks_eq_filter (limit : ℚ) :
    ∀ (l : List TimesheetEntry) (acc : ℚ),
      overtimeMarks limit acc l
        = ((withRunningTotals acc l).filter fun p => decide (limit < p.2)).map
            fun p => (p.1.id, p.2, limit)
  | [], _ => by simp [overtimeMarks, withRunningTotals]
  | e :: rest, acc => by
    simp only [overtimeMarks, withRunningTotals, List.filter_cons]
    by_cases hlt : limit < acc + e.durationHours
    · simp [hlt, overtimeMarks_eq_filter limit rest (acc + e.durationHours)]
    · simp [hlt, overtimeMarks_eq_filter limit rest (acc + e.durationHours)]

theorem withRunningTotals_getElem :
    ∀ (l : List TimesheetEntry) (acc : ℚ) (n : Nat),
      (withRunningTotals acc l)[n]? = l[n]?.map fun e => (e, acc + sumTake l (n + 1))
  | [], _, n => by simp [withRunningTotals]
  | e :: rest, acc, 0 => by
    simp [withRunningTotals, sumTake, sumDur]
  | e :: rest, acc, n + 1 => by
    simp only [withRunningTotals, List.getElem?_cons_succ]
    rw [withRunningTotals_getElem rest (acc + e.durationHours) n]
    simp [sumTake, sumDur, add_assoc]

/-- C2. The overtime derivation: (1) the marking scan records exactly
the entries whose running total after adding them exceeds the limit,
attaching `(cumulative, limit)`; (2) the running total attached to the
`n`-th entry of the scan is the sum of the first `n+1` durations; (3)
the per-task sort is a chronological `(date, startTime)` ordering of
the entries of the task; (4) with nonnegative durations, once a prefix sum
exceeds the limit every longer prefix does too (once over, stays over);
(5) on the 36.5-hour task with entries of 2.2h, 3h, 7h, 5.3h, 20h in
chronological order, exactly the fifth entry is flagged, with cumulative
37.5 against limit 36.5. -/
theorem entryOvertimeInfo_spec :
    (∀ (limit acc : ℚ) (l : List TimesheetEntry),
      overtimeMarks limit acc l
        = ((withRunningTotals acc l).filter fun p => decide (limit < p.2)).map
            fun p => (p.1.id, p.2, limit))
    ∧ (∀ (acc : ℚ) (l : List TimesheetEntry) (n : Nat),
        (withRunningTotals acc l)[n]? = l[n]?.map fun e => (e, acc + sumTake l (n + 1)))
    ∧ (∀ l : List TimesheetEntry,
        List.Sorted chronoLe (sortChrono l) ∧ (sortChrono l).Perm l)
    ∧ (∀ (limit : ℚ) (l : List TimesheetEntry),
        (∀ e ∈ l, 0 ≤ e.durationHours) →
        ∀ i j : Nat, i ≤ j → limit < sumTake l i → limit < sumTake l j)
    ∧ entryOvertimeInfo ovEntries [demoBudgetTask] = [("5", 37.5, 36.5)] := by
  refine ⟨fun limit acc l => overtimeMarks_eq_filter limit l acc,
    fun acc l n => withRunningTotals_getElem l acc n,
    fun l => ⟨List.sorted_insertionSort chronoLe l, List.perm_insertionSort chronoLe l⟩,
    fun limit l h i j hij hi => lt_of_lt_of_le hi (sumTake_mono h hij),
    by with_unfolding_all decide⟩

/-- Witness for `entryOvertimeInfo_spec`: instantiating the once-over
conjunct on the concrete scenario. -/
theorem entryOvertimeInfo_spec_witness :
    (36.5 : ℚ) < sumTake ovEntries 5 :=
  entryOvertimeInfo_spec.2.2.2.1 36.5 ovEntries
    (by with_unfolding_all decide) 5 5 (Nat.le_refl 5)
    (by with_unfolding_all decide)

/-- Witness for `weeklyCap_hard_block` at the concrete over-cap
scenario with the confirmation flag explicitly `true`. -/
theorem weeklyCap_hard_block_witness :
    handleSaveEntry [c1Entry1, c1Entry2] [] demoEmployee none overCapData "42" true
      = (some "This entry exceeds the 40-hour weekly limit.", [c1Entry1, c1Entry2]) :=
  weeklyCap_hard_block [c1Entry1, c1Entry2] [] demoEmployee none overCapData "42" true
    (by with_unfolding_all decide) (by with_unfolding_all decide)

/-- C6. The notification deriver yields nothing for an Employee; for a
Manager it emits, per task, exactly one high-severity `OVERDUE`
notification when the due date of the task is set, its status is not `Done`
and the due day is before today (day granularity), and exactly one
medium-severity `OVERTIME` notification when the estimate of the task is set
and the total hours logged against its name (summed over all entries,
not chronologically gated) exceed it. -/
theorem notifications_spec (tasks : List TaskDefinition)
    (entries : List TimesheetEntry) (today : Int)
    (hids : (tasks.map (·.id)).Nodup) :
    notificationsFor .Employee tasks entries today = []
    ∧ (∀ t ∈ tasks,
        (notificationsFor .Manager tasks entries today).countP
            (fun n => n.ntype == NType.OVERDUE && n.id == "overdue-" ++ t.id)
          = (if overduePred today t then 1 else 0)
        ∧ (notificationsFor .Manager tasks entries today).countP
            (fun n => n.ntype == NType.OVERTIME && n.id == "overtime-" ++ t.id)
          = (if overtimePred entries t then 1 else 0))
    ∧ (∀ n ∈ notificationsFor .Manager tasks entries today,
        (n.ntype = .OVERDUE → n.severity = .high) ∧
        (n.ntype = .OVERTIME → n.severity = .medium)) := by
  refine ⟨rfl, ?_, ?_⟩
  · intro t ht
    constructor
    · rw [notificationsFor, countP_flatMap_sum]
      rw [map_sum_single _ tasks t hids ht ?zero, overdue_block_countP]
      · simp
      case zero =>
        intro u _ hu
        rw [overdue_block_countP]
        simp [hu]
    · rw [notificationsFor, countP_flatMap_sum]
      rw [map_sum_single _ tasks t hids ht ?zero2, overtime_block_countP]
      · simp
      case zero2 =>
        intro u _ hu
        rw [overtime_block_countP]
        simp [hu]
  · intro n hn
    rw [notificationsFor, List.mem_flatMap] at hn
    rcases hn with ⟨t, _, hn⟩
    rw [List.mem_append, overdueAlerts_eq, overtimeAlerts_eq] at hn
    rcases hn with hn | hn <;> [skip; skip] <;>
      (revert hn; split_ifs <;> intro hn <;> simp_all)

theorem mem_overtimeMarks_source (limit : ℚ) :
    ∀ (l : List TimesheetEntry) (acc : ℚ) (m : String × ℚ × ℚ),
      m ∈ overtimeMarks limit acc l → ∃ e ∈ l, e.id = m.1
  | [], _, m => by simp [overtimeMarks]
  | e :: rest, acc, m => by
    simp only [overtimeMarks, List.mem_append]
    rintro (hm | hm)
    · by_cases hlt : limit < acc + e.durationHours
      · rw [if_pos hlt, List.mem_singleton] at hm
        subst hm
        exact ⟨e, List.mem_cons_self e rest, rfl⟩
      · rw [if_neg hlt] at hm
        simp at hm
    · obtain ⟨e', he', hid⟩ := mem_overtimeMarks_source limit rest (acc + e.durationHours) m hm
      exact ⟨e', List.mem_cons_of_mem _ he', hid⟩

theorem taskMapLookup_source (tn : String) :
    ∀ (tasks : List TaskDefinition) (acc : Option TaskDefinition) (td : TaskDefinition),
      tasks.foldl (fun acc t => if t.name == tn then some t else acc) acc = some td →
      (td ∈ tasks ∧ td.name = tn) ∨ acc = some td
  | [], _, _ => fun h => Or.inr h
  | t :: rest, acc, td => fun h => by
    rcases taskMapLookup_source tn rest (if t.name == tn then some t else acc) td h
      with h1 | h1
    · exact Or.inl ⟨List.mem_cons_of_mem _ h1.1, h1.2⟩
    · by_cases ht : t.name = tn
      · rw [if_pos (by simpa using ht), Option.some_inj] at h1
        subst h1
        exact Or.inl ⟨List.mem_cons_self _ _, ht⟩
      · rw [if_neg (by simpa using ht)] at h1
        exact Or.inr h1

/-- Every recorded overtime mark traces back to an entry of the input
set whose task name has a (budgeted) definition in the task list. -/
theorem entryOvertimeInfo_source (entries : List TimesheetEntry)
    (tasks : List TaskDefinition) :
    ∀ m ∈ entryOvertimeInfo entries tasks,
      ∃ e ∈ entries, e.id = m.1 ∧ ∃ t ∈ tasks, t.name = e.taskName := by
  intro m hm
  unfold entryOvertimeInfo at hm
  split_ifs at hm with hguard
  · simp at hm
  · rw [List.mem_flatMap] at hm
    obtain ⟨tn, _, hm⟩ := hm
    cases hlk : taskMapLookup tasks tn with
    | none => rw [hlk] at hm; simp at hm
    | some td =>
      rw [hlk] at hm
      simp only [] at hm
      by_cases hq : qTruthy td.estimatedHours = true
      · rw [if_pos hq] at hm
        obtain ⟨e, he, hid⟩ := mem_overtimeMarks_source _ _ _ m hm
        rw [sortChrono, List.mem_insertionSort, List.mem_filter] at he
        have hsrc := taskMapLookup_source tn tasks none td hlk
        rcases hsrc with ⟨htd, hname⟩ | habs
        · refine ⟨e, he.1, hid, td, htd, ?_⟩
          have hetn : e.taskName = tn := by simpa using he.2
          rw [hname, hetn]
        · cases habs
      · rw [if_neg hq] at hm
        simp at hm

/-- C9. Deleting a task removes only the rows of that task: the timesheets
table (and with it the denormalized `taskName` of every entry) and the users
table are untouched, a task survives exactly when its id differs, and an
entry whose task name no longer has any definition afterwards carries no
overtime mark (the overtime scan finds no budget for it). -/
theorem deleteTask_frame (s : DBState) (tid : String) :
    (deleteTask s tid).timesheets = s.timesheets
    ∧ (deleteTask s tid).users = s.users
    ∧ (∀ t, t ∈ (deleteTask s tid).tasks ↔ t ∈ s.tasks ∧ t.id ≠ tid)
    ∧ ((s.timesheets.map (·.id)).Nodup →
        ∀ e ∈ s.timesheets,
          (∀ t ∈ (deleteTask s tid).tasks, t.name ≠ e.taskName) →
          ∀ c l, (e.id, c, l) ∉ entryOvertimeInfo s.timesheets (deleteTask s tid).tasks) := by
  refine ⟨rfl, rfl, ?_, ?_⟩
  · intro t
    simp [deleteTask, List.mem_filter, bne_iff_ne]
  · intro hnd e he hno c l hmem
    obtain ⟨e', he', hid, t, ht, hname⟩ := entryOvertimeInfo_source _ _ _ hmem
    have heq : e' = e := List.inj_on_of_nodup_map hnd he' he (by simpa using hid)
    subst heq
    exact hno t ht hname

/-- Witness for `deleteTask_frame`: deleting the budgeted task leaves
the five entries untouched, and the formerly over-budget entry `"5"`
carries no overtime mark afterwards. -/
theorem deleteTask_frame_witness :
    (deleteTask demoDB "PMI-EPIC 9").timesheets = ovEntries
    ∧ ∀ c l, ("5", c, l) ∉ entryOvertimeInfo ovEntries (deleteTask demoDB "PMI-EPIC 9").tasks := by
  have h := deleteTask_frame demoDB "PMI-EPIC 9"
  refine ⟨h.1, ?_⟩
  intro c l
  have hm := h.2.2.2 (by decide) ovEntry5 (by simp [demoDB, ovEntries]) ?_ c l
  · simpa [ovEntry5] using hm
  · intro t ht
    simp [demoDB, deleteTask, demoBudgetTask] at ht

theorem userOfRow_rowOfUser (u : User) (h : WFUser u) :
    userOfRow (rowOfUser u) = some u := by
  obtain ⟨i, un, nm, role, av⟩ := u
  cases role <;> cases av with
  | none => rfl
  | some a =>
    have ha : a ≠ "" := by
      intro hh
      exact h (by simp [hh])
    simp [rowOfUser, strOrNull, ha, userOfRow, roleOfStr, roleStr]

theorem taskOfRow_rowOfTask (t : TaskDefinition) (h : WFTask t) :
    taskOfRow (rowOfTask t) = some t := by
  obtain ⟨i, nm, est, dd, status⟩ := t
  obtain ⟨h1, h2⟩ := h
  cases status <;> cases est with
  | none =>
    cases dd with
    | none => rfl
    | some d =>
      have hd : d ≠ "" := by
        intro hh
        exact h2 (by simp [hh])
      simp [rowOfTask, strOrNull, numOrNull, hd, taskOfRow, statusOfStr, statusStr]
  | some q =>
    have hq : q ≠ 0 := by
      intro hh
      exact h1 (by simp [hh])
    cases dd with
    | none => simp [rowOfTask, strOrNull, numOrNull, hq, taskOfRow, statusOfStr, statusStr]
    | some d =>
      have hd : d ≠ "" := by
        intro hh
        exact h2 (by simp [hh])
      simp [rowOfTask, strOrNull, numOrNull, hq, hd, taskOfRow, statusOfStr, statusStr]

theorem entryOfRow_rowOfEntry (e : TimesheetEntry) :
    entryOfRow (rowOfEntry e) = some e := by
  obtain ⟨i, uid, un, dt, st, et, dur, tn, tc, ds, mc⟩ := e
  rfl

theorem runScript_append (a b : List SQLStmt) (s : DBState) :
    runScript (a ++ b) s = runScript b (runScript a s) := by
  simp [runScript, List.foldl_append]

theorem runScript_userInserts :
    ∀ (us : List User) (st : DBState), (∀ u ∈ us, WFUser u) →
      runScript (us.map fun u => SQLStmt.insertRow "users" userCols (rowOfUser u)) st
        = { st with users := st.users ++ us }
  | [], st, _ => by simp [runScript]
  | u :: rest, st, h => by
    have hu : WFUser u := h u (List.mem_cons_self _ _)
    have hstep : execStmt st (SQLStmt.insertRow "users" userCols (rowOfUser u))
        = { st with users := st.users ++ [u] } := by
      simp [execStmt, userOfRow_rowOfUser u hu]
    simp only [List.map_cons, runScript, List.foldl_cons, hstep]
    have := runScript_userInserts rest { st with users := st.users ++ [u] }
      (fun v hv => h v (List.mem_cons_of_mem _ hv))
    simp only [runScript] at this
    rw [this]
    simp

theorem runScript_taskInserts :
    ∀ (ts : List TaskDefinition) (st : DBState), (∀ t ∈ ts, WFTask t) →
      runScript (ts.map fun t => SQLStmt.insertRow "tasks" taskCols (rowOfTask t)) st
        = { st with tasks := st.tasks ++ ts }
  | [], st, _ => by simp [runScript]
  | t :: rest, st, h => by
    have ht : WFTask t := h t (List.mem_cons_self _ _)
    have hstep : execStmt st (SQLStmt.insertRow "tasks" taskCols (rowOfTask t))
        = { st with tasks := st.tasks ++ [t] } := by
      simp [execStmt, taskOfRow_rowOfTask t ht, taskCols, userCols]
    simp only [List.map_cons, runScript, List.foldl_cons, hstep]
    have := runScript_taskInserts rest { st with tasks := st.tasks ++ [t] }
      (fun v hv => h v (List.mem_cons_of_mem _ hv))
    simp only [runScript] at this
    rw [this]
    simp

theorem runScript_entryInserts :
    ∀ (es : List TimesheetEntry) (st : DBState),
      runScript (es.map fun e =>
          SQLStmt.insertRow "timesheets" timesheetCols (rowOfEntry e)) st
        = { st with timesheets := st.timesheets ++ es }
  | [], st => by simp [runScript]
  | e :: rest, st => by
    have hstep : execStmt st (SQLStmt.insertRow "timesheets" timesheetCols (rowOfEntry e))
        = { st with timesheets := st.timesheets ++ [e] } := by
      simp [execStmt, entryOfRow_rowOfEntry e, timesheetCols, taskCols, userCols]
    simp only [List.map_cons, runScript, List.foldl_cons, hstep]
    have := runScript_entryInserts rest { st with timesheets := st.timesheets ++ [e] }
    simp only [runScript] at this
    rw [this]
    simp

theorem parseQuoted_escape (s : List Char) :
    ∀ acc, parseQuoted (escapeSqlChars s ++ ['\'']) acc
      = some (String.mk (acc ++ s), []) := by
  induction s with
  | nil =>
    intro acc
    simp [escapeSqlChars, parseQuoted]
  | cons c cs ih =>
    intro acc
    by_cases hc : c = '\''
    · subst hc
      rw [escapeSqlChars, if_pos rfl, List.cons_append, List.cons_append, parseQuoted]
      rw [ih (acc ++ ['\''])]
      simp
    · rw [escapeSqlChars, if_neg hc, List.cons_append, parseQuoted]
      · rw [ih (acc ++ [c])]
        simp
      · exact hc

/-- C10. `addUser`, `addTask` and `addTimesheetEntry` never fail on a
duplicate primary key: each is an `INSERT OR REPLACE`, so a row whose id
already exists is silently overwritten (afterwards the table holds
exactly the new row under that id, and every row with a different id is
untouched), and `updateUser` / `updateTimesheetEntry` are definitionally
the corresponding add operations. -/
theorem upsert_semantics :
    (∀ (s : DBState) (u : User),
      updateUser s u = addUser s u
      ∧ (∀ x, x ∈ (addUser s u).users ↔ (x ∈ s.users ∧ x.id ≠ u.id) ∨ x = u)
      ∧ (addUser s u).users.filter (fun x => x.id == u.id) = [u]
      ∧ (addUser s u).tasks = s.tasks ∧ (addUser s u).timesheets = s.timesheets)
    ∧ (∀ (s : DBState) (t : TaskDefinition),
      (∀ x, x ∈ (addTask s t).tasks ↔ (x ∈ s.tasks ∧ x.id ≠ t.id) ∨ x = t)
      ∧ (addTask s t).tasks.filter (fun x => x.id == t.id) = [t]
      ∧ (addTask s t).users = s.users ∧ (addTask s t).timesheets = s.timesheets)
    ∧ (∀ (s : DBState) (e : TimesheetEntry),
      updateTimesheetEntry s e = addTimesheetEntry s e
      ∧ (∀ x, x ∈ (addTimesheetEntry s e).timesheets ↔
          (x ∈ s.timesheets ∧ x.id ≠ e.id) ∨ x = e)
      ∧ (addTimesheetEntry s e).timesheets.filter (fun x => x.id == e.id) = [e]
      ∧ (addTimesheetEntry s e).users = s.users ∧ (addTimesheetEntry s e).tasks = s.tasks) := by
  refine ⟨fun s u => ⟨rfl, ?_, ?_, rfl, rfl⟩, fun s t => ⟨?_, ?_, rfl, rfl⟩,
    fun s e => ⟨rfl, ?_, ?_, rfl, rfl⟩⟩
  · exact replaceById_mem (fun x => x.id) s.users u
  · exact replaceById_filter (fun x => x.id) s.users u
  · exact replaceById_mem (fun x => x.id) s.tasks t
  · exact replaceById_filter (fun x => x.id) s.tasks t
  · exact replaceById_mem (fun x => x.id) s.timesheets e
  · exact replaceById_filter (fun x => x.id) s.timesheets e

/-- C8. Export-then-import round trip: replaying an exported backup
against freshly dropped tables reproduces the same users, tasks and
timesheets row for row (hence the same sets); a text value rendered by
the export (single quotes doubled) parses back to exactly the original
string and `NULL` parses back to `NULL`; a timesheet row stores and
reads back every field unchanged, with an absent `managerComment`
persisted as the empty string in the last column rather than `NULL`.
The well-formedness hypothesis states the stored-value invariants of
the store itself (no empty-string avatar or due date, no zero
estimate — `x || null` maps each of those to `NULL`). -/
theorem sql_export_import_roundtrip :
    (∀ s : DBState, WFState s → importStmts (exportStmts s) = s)
    ∧ (∀ str : String, parseSqlValue (renderValue (.strV str)) = some (.strV str))
    ∧ parseSqlValue (renderValue .nullV) = some .nullV
    ∧ (∀ e : TimesheetEntry, entryOfRow (rowOfEntry e) = some e)
    ∧ (∀ e : TimesheetEntry, (rowOfEntry e)[10]? = some (.strV e.managerComment)) := by
  refine ⟨?_, ?_, by decide, entryOfRow_rowOfEntry, fun e => rfl⟩
  · intro s hs
    obtain ⟨us, ts, es⟩ := s
    obtain ⟨hu, ht⟩ := hs
    simp only [importStmts, exportStmts]
    rw [runScript_append, runScript_append, runScript_append]
    have h0 : runScript [SQLStmt.createTable "users" userCols,
        SQLStmt.createTable "tasks" taskCols,
        SQLStmt.createTable "timesheets" timesheetCols] ⟨[], [], []⟩ = ⟨[], [], []⟩ := rfl
    rw [h0, runScript_userInserts us _ (fun u h => hu u h),
      runScript_taskInserts ts _ (fun t h => ht t h), runScript_entryInserts es _]
    simp
  · intro str
    have hdata : ("'" ++ String.mk (escapeSqlChars str.data) ++ "'").data
        = '\'' :: (escapeSqlChars str.data ++ ['\'']) := by
      simp [String.data_append]
    show parseSqlValue ("'" ++ String.mk (escapeSqlChars str.data) ++ "'") = some (.strV str)
    unfold parseSqlValue
    rw [hdata]
    simp only [parseQuoted_escape str.data [], List.nil_append]

/-- Witness for `sql_export_import_roundtrip`: the concrete store (one
budgeted task, five entries with empty manager comments) survives the
round trip unchanged. -/
theorem sql_export_import_roundtrip_witness :
    importStmts (exportStmts demoDB) = demoDB :=
  sql_export_import_roundtrip.1 demoDB (by with_unfolding_all decide)

/-- Witness for `notifications_spec`: on a concrete task list (a
36.5-hour task overrun at 37.5 logged hours, and an overdue task), the
feed of the manager counts exactly one `OVERTIME` notification for the
budget task and exactly one `OVERDUE` notification for the late task,
and an employee sees nothing. -/
theorem notifications_spec_witness :
    notificationsFor .Employee [demoBudgetTask, overdueTask] ovEntries
        (parseDate "2025-12-04") = []
    ∧ (notificationsFor .Manager [demoBudgetTask, overdueTask] ovEntries
        (parseDate "2025-12-04")).countP
          (fun n => n.ntype == NType.OVERTIME && n.id == "overtime-" ++ demoBudgetTask.id) = 1
    ∧ (notificationsFor .Manager [demoBudgetTask, overdueTask] ovEntries
        (parseDate "2025-12-04")).countP
          (fun n => n.ntype == NType.OVERDUE && n.id == "overdue-" ++ overdueTask.id) = 1 := by
  have h := notifications_spec [demoBudgetTask, overdueTask] ovEntries
    (parseDate "2025-12-04") (by decide)
  have h1 := (h.2.1 demoBudgetTask (by simp)).2
  have h2 := (h.2.1 overdueTask (by simp [overdueTask])).1
  refine ⟨h.1, ?_, ?_⟩
  · rw [h1, if_pos (by with_unfolding_all decide)]
  · rw [h2, if_pos (by with_unfolding_all decide)]

end Chrono
